import Mathlib

/-!
Verification development for a browser-based file decryptor.

The repository is a decrypt-only tool: it parses a custom encrypted container
(magic marker, nonce, big-endian counter, AES-CTR ciphertext), derives keys by
hashing a password, sniffs decrypted bytes against known image signatures, and
recovers hidden date/link metadata from filenames via a dual-scheme codec.

The embedding below models bytes as `List Nat` (each element a byte value),
strings as Lean `String`, and the platform block cipher (Web Crypto AES-CTR)
abstractly as a keystream function, since counter-mode decryption is XOR with
a keystream determined by the key and the initial counter block.  The SHA-256
digest used for key derivation is likewise abstracted as a function parameter.
JavaScript floating-point arithmetic on nonnegative integers is modelled
exactly: every arithmetic result is rounded to the nearest representable
IEEE-754 double (53 significant bits, ties to even), which is the precise
behaviour of JS numbers holding nonnegative integers in this range.
-/

set_option maxRecDepth 4096

/-! ## Format sniffing (`detectFileType` in `script.js` and in the legacy batch file) -/

/-- One entry of the known-signature table. -/
structure FileSig where
  sig : List Nat
  ext : String
  mime : String
  ty : String
deriving DecidableEq

/-- Result of sniffing a buffer, as returned by `detectFileType` in `script.js`. -/
structure SniffResult where
  ext : String
  mime : String
  ty : String
  isValid : Bool
deriving DecidableEq

/-- Result of sniffing in the legacy batch file (no mime, no explicit flag). -/
structure LegacySniff where
  ext : String
  ty : String
deriving DecidableEq

/-- The signature table of `detectFileType` (`script.js`), in source order. -/
def fileTypes : List FileSig :=
  [ ⟨[0xFF, 0xD8], "jpg", "image/jpeg", "JPEG"⟩,
    ⟨[0x89, 0x50, 0x4E, 0x47], "png", "image/png", "PNG"⟩,
    ⟨[0x42, 0x4D], "bmp", "image/bmp", "BMP"⟩,
    ⟨[0x52, 0x49, 0x46, 0x46], "webp", "image/webp", "WEBP"⟩,
    ⟨[0x47, 0x49, 0x46, 0x38], "gif", "image/gif", "GIF"⟩ ]

/-- JS `header.slice(0, sig.length).every((byte, i) => byte === sig[i])`:
`Array.every` visits only the elements actually present, so a header shorter
than the signature is compared only on its existing bytes. -/
def matchesSig (header : List Nat) (sig : List Nat) : Bool :=
  ((header.take sig.length).zip sig).all fun p => p.1 == p.2

/-- `detectFileType` from `script.js`: take the first 16 bytes and return the
first signature entry that matches, else the Unknown result. -/
def detectFileType (data : List Nat) : SniffResult :=
  let header := data.take 16
  match fileTypes.find? (fun ft => matchesSig header ft.sig) with
  | some ft => ⟨ft.ext, ft.mime, ft.ty, true⟩
  | none => ⟨"bin", "application/octet-stream", "Unknown", false⟩

/-- Label used by the legacy batch file for an unrecognized header. -/
def unknownTypeLabel : String := "Неизвестный"

/-- `detectFileType` from the legacy batch file: same signature table (without
mime strings), applied to the header bytes passed by the caller. -/
def detectFileTypeLegacy (header : List Nat) : LegacySniff :=
  match fileTypes.find? (fun ft => matchesSig header ft.sig) with
  | some ft => ⟨ft.ext, ft.ty⟩
  | none => ⟨"bin", unknownTypeLabel⟩

/-! ## Encryption marker -/

/-- The 4-byte magic marker "ENC_". -/
def magicMarker : List Nat := [0x45, 0x4E, 0x43, 0x5F]

/-- `checkEncryptionMarker`: compare the first (up to) 4 bytes with the marker;
`Array.every` again only visits bytes actually present. -/
def checkEncryptionMarker (fileData : List Nat) : Bool :=
  ((fileData.take 4).zip magicMarker).all fun p => p.1 == p.2

/-! ## JavaScript number arithmetic on the 64-bit counter

`decryptFileData` reads the 8 counter bytes with
`counterValue = counterValue * 256 + ivCounterBytes[i]` on JS numbers, which
are IEEE-754 doubles.  For nonnegative integers this is exact arithmetic
followed by rounding to 53 significant bits (round to nearest, ties to even).
The write-back loop `fullIV[8+i] = counterValue & 0xFF; counterValue =
Math.floor(counterValue / 256)` is exact for integer-valued doubles: `& 0xFF`
takes the value mod 256 (via the low byte of the 32-bit pattern) and the
floored division by 256 introduces no rounding, so it emits the big-endian
bytes of `counterValue mod 2^64`. -/

/-- Fuelled base-2 logarithm (structurally recursive so that proofs can
evaluate it); with fuel 128 it is exact for every value below `2^128`. -/
def natLog2Aux : Nat → Nat → Nat
  | 0, _ => 0
  | fuel + 1, n => if n < 2 then 0 else natLog2Aux fuel (n / 2) + 1

/-- Base-2 logarithm (floor), exact on the range reachable here. -/
def natLog2 (n : Nat) : Nat := natLog2Aux 128 n

/-- Round a nonnegative integer to the nearest IEEE-754 double
(53 significant bits, ties to even).  Values below `2^53` are exact. -/
def jsRound53 (n : Nat) : Nat :=
  if n < 2 ^ 53 then n
  else
    let ulp := 2 ^ (natLog2 n - 52)
    let q := n / ulp
    let r := n % ulp
    if 2 * r < ulp then q * ulp
    else if ulp < 2 * r then (q + 1) * ulp
    else if q % 2 = 0 then q * ulp else (q + 1) * ulp

/-- The counter-decoding loop of `decryptFileData`, with each JS arithmetic
operation (the multiply and the add) rounded to double precision. -/
def jsDecodeCounter (bytes : List Nat) : Nat :=
  bytes.foldl (fun acc b => jsRound53 (jsRound53 (acc * 256) + b)) 0

/-- The counter write-back loop of `decryptFileData`: the big-endian bytes of
the (integer-valued) counter modulo `2^64`. -/
def reencodeCounterBE (c : Nat) : List Nat :=
  (List.range 8).map fun i => c / 256 ^ (7 - i) % 256

/-- True unsigned big-endian decoding, as the specification mandates for the
counter field (no precision loss). -/
def decodeCounterBE (bytes : List Nat) : Nat :=
  bytes.foldl (fun acc b => acc * 256 + b) 0

/-- The counter-block normalization of `decryptFileData`: keep the first 8
bytes of the 16-byte IV, decode the last 8 bytes with JS number arithmetic,
and re-encode the result big-endian into the low half of the full IV. -/
def normalizeCounterBlock (iv : List Nat) : List Nat :=
  iv.take 8 ++ reencodeCounterBE (jsDecodeCounter ((iv.drop 8).take 8))

/-! ## Stream cipher (Web Crypto AES-CTR, abstracted)

Modelled from the spec: `StreamCipher` performs counter-mode block decryption,
which is XOR of the ciphertext with a keystream determined by the key and the
16-byte initial counter block.  The AES block computation itself lives in the
platform (`crypto.subtle`), so it is abstracted as the keystream function. -/

/-- Abstract CTR keystream: key, initial counter block, byte index to
keystream byte. -/
def Keystream : Type := List Nat → List Nat → Nat → Nat

/-- XOR a byte list with the keystream starting at byte index `i`. -/
def ctrXor (ks : Keystream) (key counterBlock : List Nat) : Nat → List Nat → List Nat
  | _, [] => []
  | i, b :: rest => (b ^^^ ks key counterBlock i) :: ctrXor ks key counterBlock (i + 1) rest

/-! ## Container parsing and decryption (`decryptFileData` in `script.js`) -/

/-- Errors thrown by `decryptFileData`, in the order the checks appear. -/
inductive DecryptError where
  | tooSmall
  | invalidMarker
  | emptyPayload
deriving DecidableEq

/-- The parsed current-generation container. -/
structure Container where
  nonce : List Nat
  counter : List Nat
  ciphertext : List Nat
deriving DecidableEq

/-- The parsing phase of `decryptFileData`: length check, marker check, slice
out the IV (bytes 4..20, i.e. nonce then counter) and the ciphertext
(bytes 20..), and reject an empty ciphertext. -/
def parseContainer (bytes : List Nat) : Except DecryptError Container :=
  if bytes.length < 20 then .error .tooSmall
  else if ¬ checkEncryptionMarker bytes then .error .invalidMarker
  else if bytes.drop 20 = [] then .error .emptyPayload
  else .ok ⟨(bytes.drop 4).take 8, (bytes.drop 12).take 8, bytes.drop 20⟩

/-- `decryptFileData`: parse the container, normalize the 16-byte IV into the
full counter block, and CTR-decrypt the ciphertext. -/
def decryptFileData (ks : Keystream) (key bytes : List Nat) : Except DecryptError (List Nat) :=
  (parseContainer bytes).map fun c =>
    ctrXor ks key (normalizeCounterBlock (c.nonce ++ c.counter)) 0 c.ciphertext

/-- Modelled from the spec: the current-generation container encoder
(`bytes[0:4]="ENC_"`, then nonce, then counter, then the stream-ciphered
plaintext with initial counter block nonce-then-counter).  No encoder exists
in the sources; this is the inverse needed for round-trip testing. -/
def encodeContainer (ks : Keystream) (key nonce counter pt : List Nat) : List Nat :=
  magicMarker ++ nonce ++ counter ++ ctrXor ks key (nonce ++ counter) 0 pt

/-! ## UTF-8 (TextEncoder / TextDecoder) -/

/-- UTF-8 encoding of a single scalar value (`TextEncoder`). -/
def utf8EncodeChar (c : Char) : List Nat :=
  let n := c.toNat
  if n < 0x80 then [n]
  else if n < 0x800 then [0xC0 + n / 64, 0x80 + n % 64]
  else if n < 0x10000 then [0xE0 + n / 4096, 0x80 + n / 64 % 64, 0x80 + n % 64]
  else [0xF0 + n / 262144, 0x80 + n / 4096 % 64, 0x80 + n / 64 % 64, 0x80 + n % 64]

/-- UTF-8 encoding of a string (`TextEncoder.encode`). -/
def utf8Encode (s : String) : List Nat :=
  (s.data.map utf8EncodeChar).flatten

/-- Whether a byte is a UTF-8 continuation byte. -/
def isCont (b : Nat) : Bool := decide (0x80 ≤ b ∧ b ≤ 0xBF)

/-- UTF-8 decoding with U+FFFD replacement (`TextDecoder.decode`), including
the range restrictions that exclude overlong forms and surrogates.  The first
argument is recursion fuel (structural, so proofs can evaluate the function);
the caller passes the list length, which always suffices because every step
consumes at least one byte. -/
def utf8DecodeAux : Nat → List Nat → List Char
  | 0, _ => []
  | _ + 1, [] => []
  | fuel + 1, b :: rest =>
    if b < 0x80 then Char.ofNat b :: utf8DecodeAux fuel rest
    else if 0xC2 ≤ b ∧ b ≤ 0xDF then
      match rest with
      | c1 :: rest1 =>
        if isCont c1 then
          Char.ofNat ((b - 0xC0) * 64 + (c1 - 0x80)) :: utf8DecodeAux fuel rest1
        else '�' :: utf8DecodeAux fuel rest
      | [] => ['�']
    else if 0xE0 ≤ b ∧ b ≤ 0xEF then
      match rest with
      | c1 :: c2 :: rest2 =>
        if isCont c1 ∧ isCont c2
            ∧ (b = 0xE0 → 0xA0 ≤ c1) ∧ (b = 0xED → c1 ≤ 0x9F) then
          Char.ofNat ((b - 0xE0) * 4096 + (c1 - 0x80) * 64 + (c2 - 0x80))
            :: utf8DecodeAux fuel rest2
        else '�' :: utf8DecodeAux fuel rest
      | _ => '�' :: utf8DecodeAux fuel rest
    else if 0xF0 ≤ b ∧ b ≤ 0xF4 then
      match rest with
      | c1 :: c2 :: c3 :: rest3 =>
        if isCont c1 ∧ isCont c2 ∧ isCont c3
            ∧ (b = 0xF0 → 0x90 ≤ c1) ∧ (b = 0xF4 → c1 ≤ 0x8F) then
          Char.ofNat ((b - 0xF0) * 262144 + (c1 - 0x80) * 4096 + (c2 - 0x80) * 64 + (c3 - 0x80))
            :: utf8DecodeAux fuel rest3
        else '�' :: utf8DecodeAux fuel rest
      | _ => '�' :: utf8DecodeAux fuel rest
    else '�' :: utf8DecodeAux fuel rest

/-- UTF-8 decoding to a string. -/
def utf8Decode (bytes : List Nat) : String := ⟨utf8DecodeAux bytes.length bytes⟩

/-! ## Key derivation -/

/-- `generateKey` from `script.js`: digest the UTF-8 bytes of the password.
The digest (SHA-256, a platform call) is abstracted as `H`. -/
def generateKey (H : List Nat → List Nat) (password : String) : List Nat :=
  H (utf8Encode password)

/-- The password defaulting of `decryptFiles` (and of `decryptFilename`):
JS `password || 'default_password'` replaces the empty string by the
literal default. -/
def effectivePassword (p : String) : String :=
  if p = "" then "default_password" else p

/-! ## Base64 (`atob` and the encoder's `btoa`-style encoding) -/

/-- Value of one base64 alphabet character, `none` outside the alphabet. -/
def b64Val (c : Char) : Option Nat :=
  if 'A' ≤ c ∧ c ≤ 'Z' then some (c.toNat - 65)
  else if 'a' ≤ c ∧ c ≤ 'z' then some (c.toNat - 97 + 26)
  else if '0' ≤ c ∧ c ≤ '9' then some (c.toNat - 48 + 52)
  else if c = '+' then some 62
  else if c = '/' then some 63
  else none

/-- ASCII whitespace removed by the forgiving-base64 algorithm behind `atob`. -/
def isAsciiSpace (c : Char) : Bool :=
  c = ' ' || c = '\t' || c = '\n' || c = '\x0c' || c = '\r'

/-- Strip up to two trailing '=' characters. -/
def stripPad (cs : List Char) : List Char :=
  let c1 := if cs.getLast? = some '=' then cs.dropLast else cs
  if c1.getLast? = some '=' then c1.dropLast else c1

/-- Reassemble 6-bit groups into bytes, discarding leftover bits. -/
def b64Bits : List Nat → Nat → Nat → List Nat
  | [], _, _ => []
  | v :: rest, buf, bits =>
    let buf' := buf * 64 + v
    let bits' := bits + 6
    if 8 ≤ bits' then
      (buf' / 2 ^ (bits' - 8) % 256) :: b64Bits rest (buf' % 2 ^ (bits' - 8)) (bits' - 8)
    else b64Bits rest buf' bits'

/-- JS `atob` (WHATWG forgiving base64): strip ASCII whitespace, strip up to
two trailing '=' when the length is a multiple of 4, reject a remainder of 1
modulo 4 and any character outside the alphabet, then decode 6-bit groups. -/
def atob (s : String) : Option (List Nat) :=
  let cs := s.data.filter fun c => ¬ isAsciiSpace c
  let cs := if cs.length % 4 = 0 then stripPad cs else cs
  if cs.length % 4 = 1 then none
  else (cs.mapM b64Val).map fun vals => b64Bits vals 0 0

/-- The base64 alphabet in order. -/
def b64Alphabet : List Char :=
  "ABCDEFGHIJKLMNOPQRSTUVWXYZabcdefghijklmnopqrstuvwxyz0123456789+/".data

/-- Character for a 6-bit value. -/
def b64Char (n : Nat) : Char := b64Alphabet.getD n 'A'

/-- Standard base64 encoding with '=' padding. -/
def base64Encode : List Nat → List Char
  | [] => []
  | [a] => [b64Char (a / 4), b64Char (a % 4 * 16), '=', '=']
  | [a, b] => [b64Char (a / 4), b64Char (a % 4 * 16 + b / 16), b64Char (b % 16 * 4), '=']
  | a :: b :: c :: rest =>
    b64Char (a / 4) :: b64Char (a % 4 * 16 + b / 16) :: b64Char (b % 16 * 4 + c / 64)
      :: b64Char (c % 64) :: base64Encode rest

/-! ## Filename codec (`decryptFilename` in `script.js`) -/

/-- Strip the filename extension exactly as the
regular expression replace in `decryptFilename` does: remove a final dot
followed by one or more characters none of which is a dot or a slash. -/
def stripExt (s : String) : String :=
  let rcs := s.data.reverse
  let seg := rcs.takeWhile fun c => c ≠ '.' ∧ c ≠ '/'
  if seg.length < rcs.length ∧ rcs.getD seg.length ' ' = '.' ∧ seg ≠ [] then
    ⟨s.data.take (s.data.length - seg.length - 1)⟩
  else s

/-- JS `String.prototype.split` with a single-character separator: the list of
(possibly empty) segments between separator occurrences; always non-empty. -/
def splitOnChar (sep : Char) : List Char → List (List Char)
  | [] => [[]]
  | c :: rest =>
    if c = sep then [] :: splitOnChar sep rest
    else
      match splitOnChar sep rest with
      | s :: ss => (c :: s) :: ss
      | [] => [[c]]

/-- The XOR loop of `decryptFilename`: byte `i` is XORed with
`passwordBytes[i mod passwordBytes.length]`. -/
def xorKeystream (pw : List Nat) : Nat → List Nat → List Nat
  | _, [] => []
  | i, b :: rest => (b ^^^ pw.getD (i % pw.length) 0) :: xorKeystream pw (i + 1) rest

/-- Metadata recovered from a filename, as returned by `decryptFilename`. -/
structure FilenameMeta where
  dateTime : Option String
  link : Option String
  success : Bool
deriving DecidableEq

/-- The primary-scheme postprocessing of the XOR-decoded text: when it
contains a '|' the code runs `split('|', 2)` (all segments, keep the first
two) and maps the literal segment "null" to a null link. -/
def parseDecodedText (s : String) : Option (String × Option String) :=
  if '|' ∈ s.data then
    let parts := (splitOnChar '|' s.data).take 2
    let dt : String := ⟨parts.getD 0 []⟩
    let lk : String := ⟨parts.getD 1 []⟩
    some (dt, if lk = "null" then none else some lk)
  else none

/-- The legacy (`YYYYMMDD_HHMMSS_link`) branch of `decryptFilename`.
JS indexing `baseName[15]` on a shorter string yields `undefined`, which the
comparison with '_' rejects, here modelled by `List.get?`. -/
def legacyDecode (baseName : String) : FilenameMeta :=
  let cs := baseName.data
  if 15 ≤ cs.length ∧ cs.get? 8 = some '_' ∧ cs.get? 15 = some '_' then
    let datePart := cs.take 8
    let timePart := (cs.drop 9).take 6
    if datePart.length = 8 ∧ datePart.all Char.isDigit
        ∧ timePart.length = 6 ∧ timePart.all Char.isDigit then
      let linkPart := cs.drop 16
      let dt : String := ⟨datePart ++ '_' :: timePart⟩
      if linkPart ≠ [] then
        let restored : String := ⟨linkPart.map fun c => if c = '_' then '/' else c⟩
        let link :=
          if "http://".data.isPrefixOf restored.data ∨ "https://".data.isPrefixOf restored.data
          then restored else "https://" ++ restored
        ⟨some dt, some link, true⟩
      else ⟨some dt, none, true⟩
    else ⟨none, none, false⟩
  else ⟨none, none, false⟩

/-- `decryptFilename`: strip the extension, try the primary scheme
(base64-decode, XOR with the cyclic password keystream, UTF-8 decode, split on
'|'); when base64 decoding fails or the decoded text has no '|', fall back to
the legacy date/link pattern. -/
def decryptFilename (filename password : String) : FilenameMeta :=
  let baseName := stripExt filename
  match atob baseName with
  | some data =>
    let pwBytes := utf8Encode (effectivePassword password)
    let decStr := utf8Decode (xorKeystream pwBytes 0 data)
    match parseDecodedText decStr with
    | some (dt, lk) => ⟨some dt, lk, true⟩
    | none => legacyDecode baseName
  | none => legacyDecode baseName

/-- Modelled from the spec: `FilenameCodec.encode` (no encoder exists in the
sources) — UTF-8-encode `dateTime`, '|', and the link (or the literal
"null"), XOR with the cyclic password keystream, base64-encode. -/
def filenameEncode (dateTime : String) (link : Option String) (password : String) : String :=
  ⟨base64Encode (xorKeystream (utf8Encode password) 0
    (utf8Encode (dateTime ++ "|" ++ link.getD "null")))⟩

/-! ## Per-file processing (`processFile` in `script.js`) -/

/-- Error message mapping of `processFile`'s catch for `decryptFileData`. -/
def decryptErrorMsg : DecryptError → String
  | .tooSmall => "Файл слишком мал"
  | .invalidMarker => "Неверный маркер шифрования"
  | .emptyPayload => "Нет зашифрованного содержимого"

/-- Outcome of processing one file in `script.js` (the decode decisions;
presentation-only fields such as download links are outside the model). -/
inductive ProcessOutcome where
  | ok (isEncrypted : Bool) (bytes : List Nat) (ft : SniffResult)
  | err (msg : String)
deriving DecidableEq

/-- `processFile` from `script.js`: files carrying the magic marker are
decrypted and must sniff as a valid type; files without the marker pass
through unchanged with `isEncrypted = false`. -/
def processFile (ks : Keystream) (key bytes : List Nat) : ProcessOutcome :=
  if checkEncryptionMarker bytes then
    match decryptFileData ks key bytes with
    | .error e => .err (decryptErrorMsg e)
    | .ok dec =>
      let ft := detectFileType dec
      if ft.isValid then .ok true dec ft
      else .err "Неверный пароль или поврежденный файл"
  else
    .ok false bytes (detectFileType bytes)

/-! ## Strict legacy batch processing (`processFile` in the legacy batch file) -/

/-- Failure message of the strict legacy mode's sniff check. -/
def wrongPasswordMsg : String := "Не изображение или неверный пароль"

/-- Outcome of processing one file in the legacy batch file. -/
inductive LegacyOutcome where
  | ok (ext ty : String) (bytes : List Nat)
  | err (msg : String)
deriving DecidableEq

/-- `processFile` from the legacy batch file: the first 16 bytes are used
directly as the raw counter block, the rest is CTR-decrypted, and the result
is accepted only when the first 4 decrypted bytes sniff as a known type. -/
def processFileLegacy (ks : Keystream) (key bytes : List Nat) : LegacyOutcome :=
  if bytes.length < 16 then .err "Файл слишком мал"
  else
    let iv := bytes.take 16
    let content := bytes.drop 16
    if content = [] then .err "Пустой файл"
    else
      let dec := ctrXor ks key iv 0 content
      let fi := detectFileTypeLegacy (dec.take 4)
      if fi.ty = unknownTypeLabel then .err wrongPasswordMsg
      else .ok fi.ext fi.ty dec

/-! ## Helper lemmas -/

theorem ctrXor_length (ks : Keystream) (key cb : List Nat) :
    ∀ (i : Nat) (l : List Nat), (ctrXor ks key cb i l).length = l.length := by
  intro i l
  induction l generalizing i with
  | nil => rfl
  | cons b rest ih => simp [ctrXor, ih]

theorem ctrXor_involution (ks : Keystream) (key cb : List Nat) :
    ∀ (i : Nat) (l : List Nat), ctrXor ks key cb i (ctrXor ks key cb i l) = l := by
  intro i l
  induction l generalizing i with
  | nil => rfl
  | cons b rest ih => simp [ctrXor, ih, Nat.xor_cancel_right]

theorem splitOnChar_ne_nil (sep : Char) (cs : List Char) : splitOnChar sep cs ≠ [] := by
  induction cs with
  | nil => simp [splitOnChar]
  | cons c rest ih =>
    by_cases h : c = sep
    · simp [splitOnChar, h]
    · simp only [splitOnChar, if_neg h]
      cases hs : splitOnChar sep rest with
      | nil => exact absurd hs ih
      | cons s ss => simp

theorem splitOnChar_head (sep : Char) (cs : List Char) :
    (splitOnChar sep cs).head? = some (cs.takeWhile (fun c => c ≠ sep)) := by
  induction cs with
  | nil => simp [splitOnChar]
  | cons c rest ih =>
    by_cases h : c = sep
    · simp [splitOnChar, h, List.takeWhile]
    · simp only [splitOnChar, if_neg h]
      cases hs : splitOnChar sep rest with
      | nil => exact absurd hs (splitOnChar_ne_nil sep rest)
      | cons s ss =>
        rw [hs] at ih
        simp only [List.head?] at ih ⊢
        simp only [List.takeWhile, decide_not]
        simp [h, Option.some.injEq] at ih ⊢
        exact ih

theorem splitOnChar_mem (sep : Char) (cs : List Char) (h : sep ∈ cs) :
    splitOnChar sep cs =
      cs.takeWhile (fun c => c ≠ sep) :: splitOnChar sep ((cs.dropWhile (fun c => c ≠ sep)).tail) := by
  induction cs with
  | nil => cases h
  | cons c rest ih =>
    by_cases hc : c = sep
    · subst hc
      simp [splitOnChar, List.takeWhile, List.dropWhile]
    · have hrest : sep ∈ rest := by
        cases h with
        | head => exact absurd rfl hc
        | tail _ h' => exact h'
      simp only [splitOnChar, if_neg hc]
      rw [ih hrest]
      simp [List.takeWhile, List.dropWhile, hc]

/-! ## Claim C1 -/

/-- C1: the claim states that the counter-block normalization decodes the 8
counter bytes as a true unsigned 64-bit big-endian integer so that the
decode/re-encode round trip is the identity over the full 64-bit range.  The
code instead accumulates the counter in a JS number: at counter bytes
`FF×8` the accumulation rounds to `2^64` and the re-encoded low half of the
counter block becomes `00×8`, so the round trip is not the identity — while
the true big-endian decode the claim (and the spec) mandates does round-trip
on the same bytes. -/
theorem counterNormalization_float_precision_loss :
    normalizeCounterBlock (List.replicate 8 0 ++ List.replicate 8 255) = List.replicate 16 0
    ∧ normalizeCounterBlock (List.replicate 8 0 ++ List.replicate 8 255)
        ≠ List.replicate 8 0 ++ List.replicate 8 255
    ∧ reencodeCounterBE (decodeCounterBE (List.replicate 8 255)) = List.replicate 8 255 :=
  ⟨by decide, by decide, by decide⟩

/-! ## Claim C2 -/

/-- A concrete keystream instance (distinguishes counter blocks by their
ninth byte, the high byte of the counter field). -/
def ksDemo : Keystream := fun _ cb _ => cb.getD 8 0

/-- A concrete digest instance for the abstract SHA-256 parameter. -/
def shaDemo : List Nat → List Nat := fun _ => []

/-- C2 counterexample: encoding a container whose 8-byte counter field is
`FF×8` and decrypting it with the same password does not return the original
plaintext, because `decryptFileData` normalizes the counter through JS number
arithmetic and decrypts under the counter block `nonce ‖ 00×8` instead of
`nonce ‖ FF×8`. -/
theorem containerRoundTrip_fails_at_large_counter :
    decryptFileData ksDemo (generateKey shaDemo "p")
        (encodeContainer ksDemo (generateKey shaDemo "p")
          (List.replicate 8 0) (List.replicate 8 255) [0xFF, 0xD8])
      = .ok [0x00, 0x27]
    ∧ ([0x00, 0x27] : List Nat) ≠ [0xFF, 0xD8] :=
  ⟨by rfl, by decide⟩

theorem decrypt_encode_of_normalized (ks : Keystream) (key nonce counter pt : List Nat)
    (hn : nonce.length = 8) (hc : counter.length = 8) (hpt : pt ≠ [])
    (hnorm : normalizeCounterBlock (nonce ++ counter) = nonce ++ counter) :
    decryptFileData ks key (encodeContainer ks key nonce counter pt) = .ok pt := by
  set ct := ctrXor ks key (nonce ++ counter) 0 pt with hctdef
  have hct : ct.length = pt.length := ctrXor_length ks key (nonce ++ counter) 0 pt
  have hptpos : 0 < pt.length := List.length_pos.mpr hpt
  have hbytes : encodeContainer ks key nonce counter pt
      = magicMarker ++ (nonce ++ (counter ++ ct)) := by
    simp [encodeContainer, hctdef, List.append_assoc]
  have hlen : (magicMarker ++ (nonce ++ (counter ++ ct))).length = 20 + pt.length := by
    simp [magicMarker, hn, hc, hct]; omega
  have htake4 : (magicMarker ++ (nonce ++ (counter ++ ct))).take 4 = magicMarker := by
    have h4 : magicMarker.length = 4 := rfl
    rw [← h4, List.take_left]
  have hdrop4 : (magicMarker ++ (nonce ++ (counter ++ ct))).drop 4 = nonce ++ (counter ++ ct) := by
    have h4 : magicMarker.length = 4 := rfl
    rw [← h4, List.drop_left]
  have hdrop12 : (magicMarker ++ (nonce ++ (counter ++ ct))).drop 12 = counter ++ ct := by
    have h12 : (magicMarker ++ nonce).length = 12 := by simp [magicMarker, hn]
    rw [show magicMarker ++ (nonce ++ (counter ++ ct)) = (magicMarker ++ nonce) ++ (counter ++ ct) by
      simp [List.append_assoc]]
    rw [← h12, List.drop_left]
  have hdrop20 : (magicMarker ++ (nonce ++ (counter ++ ct))).drop 20 = ct := by
    have h20 : ((magicMarker ++ nonce) ++ counter).length = 20 := by simp [magicMarker, hn, hc]
    rw [show magicMarker ++ (nonce ++ (counter ++ ct)) = ((magicMarker ++ nonce) ++ counter) ++ ct by
      simp [List.append_assoc]]
    rw [← h20, List.drop_left]
  have hmark : checkEncryptionMarker (magicMarker ++ (nonce ++ (counter ++ ct))) = true := by
    unfold checkEncryptionMarker
    rw [htake4]; rfl
  rw [hbytes]
  unfold decryptFileData parseContainer
  rw [if_neg (by rw [hlen]; omega)]
  rw [if_neg (by rw [hmark]; simp)]
  rw [if_neg (by rw [hdrop20]; intro hcon; rw [hcon] at hct; simp at hct; omega)]
  rw [hdrop4, hdrop12, hdrop20]
  have htaken : (nonce ++ (counter ++ ct)).take 8 = nonce := by
    rw [← hn, List.take_left]
  have htakec : (counter ++ ct).take 8 = counter := by
    rw [← hc, List.take_left]
  simp only [Except.map, htaken, htakec]
  rw [hnorm, hctdef, ctrXor_involution]

/-- C2 amended: for every keystream, digest, password, 8-byte nonce, 8-byte
counter and non-empty plaintext, building the current-generation container
and decrypting it with the same password returns the original plaintext,
provided the counter field survives the decoder's decode/re-encode
normalization (which holds in particular for every counter value below
`2^53`, but fails above it, e.g. at `FF×8`). -/
theorem containerRoundTrip_of_normalized (ks : Keystream) (H : List Nat → List Nat)
    (password : String) (nonce counter pt : List Nat)
    (hn : nonce.length = 8) (hc : counter.length = 8) (hpt : pt ≠ [])
    (hnorm : normalizeCounterBlock (nonce ++ counter) = nonce ++ counter) :
    decryptFileData ks (generateKey H password)
        (encodeContainer ks (generateKey H password) nonce counter pt) = .ok pt :=
  decrypt_encode_of_normalized ks (generateKey H password) nonce counter pt hn hc hpt hnorm

/-- Witness for C2's amended theorem at a concrete instance. -/
theorem containerRoundTrip_of_normalized_witness :
    (List.replicate 8 0 : List Nat).length = 8
    ∧ ([0xFF, 0xD8] : List Nat) ≠ []
    ∧ normalizeCounterBlock (List.replicate 8 0 ++ List.replicate 8 0)
        = List.replicate 8 0 ++ List.replicate 8 0
    ∧ decryptFileData ksDemo (generateKey shaDemo "p")
        (encodeContainer ksDemo (generateKey shaDemo "p")
          (List.replicate 8 0) (List.replicate 8 0) [0xFF, 0xD8]) = .ok [0xFF, 0xD8] :=
  ⟨by decide, by decide, by decide,
    containerRoundTrip_of_normalized ksDemo shaDemo "p" _ _ _ (by decide) (by decide)
      (by decide) (by decide)⟩

/-! ## Claim C3 -/

/-- The XOR-decoded text of the primary filename scheme. -/
def primaryDecoded (password : String) (data : List Nat) : List Char :=
  (utf8Decode (xorKeystream (utf8Encode (effectivePassword password)) 0 data)).data

/-- The null-link mapping of the primary scheme. -/
def nullLink (seg : String) : Option String :=
  if seg = "null" then none else some seg

/-- C3 counterexample: the stem "EQwSDBM=" XOR-decodes under password "p" to
"a|b|c"; the claim says the link part should be the entire remainder "b|c"
after the first '|', but `split('|', 2)` keeps only the first two segments,
so the code returns link "b" and drops "|c". -/
theorem filenameSplit_drops_later_segments :
    utf8Decode (xorKeystream (utf8Encode "p") 0 ((atob "EQwSDBM=").getD [])) = "a|b|c"
    ∧ decryptFilename "EQwSDBM=" "p" = ⟨some "a", some "b", true⟩
    ∧ decryptFilename "EQwSDBM=" "p" ≠ ⟨some "a", some "b|c", true⟩ :=
  ⟨by decide, by decide, by decide⟩

/-- C3 amended: for every base64-decodable stem whose XOR-decoded text
contains a '|', the code splits on all occurrences of '|' and keeps only the
first two segments: dateTime is the text before the first '|', and the link
part is the text strictly between the first and the second '|' (so any text
after a second '|' is dropped, not kept verbatim); a link part equal to
"null" still maps to a null link. -/
theorem parseDecodedText_eq (s : String) (h : '|' ∈ s.data) :
    parseDecodedText s = some (⟨s.data.takeWhile (fun c => c ≠ '|')⟩,
      nullLink ⟨((s.data.dropWhile (fun c => c ≠ '|')).tail).takeWhile (fun c => c ≠ '|')⟩) := by
  obtain ⟨s2, ss, htl⟩ := List.exists_cons_of_ne_nil
    (splitOnChar_ne_nil '|' ((s.data.dropWhile (fun c => c ≠ '|')).tail))
  have hs2 : s2 = ((s.data.dropWhile (fun c => c ≠ '|')).tail).takeWhile (fun c => c ≠ '|') := by
    have hh := splitOnChar_head '|' ((s.data.dropWhile (fun c => c ≠ '|')).tail)
    rw [htl] at hh
    simpa using hh
  unfold parseDecodedText
  rw [if_pos h, splitOnChar_mem '|' s.data h, htl, hs2]
  simp [nullLink]

theorem decryptFilename_keeps_first_two_segments (filename password : String) (data : List Nat)
    (hdec : atob (stripExt filename) = some data)
    (hbar : '|' ∈ primaryDecoded password data) :
    decryptFilename filename password =
      ⟨some ⟨(primaryDecoded password data).takeWhile (fun c => c ≠ '|')⟩,
       nullLink ⟨(((primaryDecoded password data).dropWhile (fun c => c ≠ '|')).tail).takeWhile
         (fun c => c ≠ '|')⟩,
       true⟩ := by
  show (match atob (stripExt filename) with
    | some d =>
      match parseDecodedText (utf8Decode (xorKeystream
          (utf8Encode (effectivePassword password)) 0 d)) with
      | some (dt, lk) => FilenameMeta.mk (some dt) lk true
      | none => legacyDecode (stripExt filename)
    | none => legacyDecode (stripExt filename)) = _
  rw [hdec]
  show (match parseDecodedText (utf8Decode (xorKeystream
      (utf8Encode (effectivePassword password)) 0 data)) with
    | some (dt, lk) => FilenameMeta.mk (some dt) lk true
    | none => legacyDecode (stripExt filename)) = _
  rw [parseDecodedText_eq (utf8Decode (xorKeystream
    (utf8Encode (effectivePassword password)) 0 data)) hbar]
  rfl

/-- Witness for C3's amended theorem at a concrete filename. -/
theorem decryptFilename_keeps_first_two_segments_witness :
    atob (stripExt "EQwSDBM=") = some [17, 12, 18, 12, 19]
    ∧ '|' ∈ primaryDecoded "p" [17, 12, 18, 12, 19]
    ∧ decryptFilename "EQwSDBM=" "p" = ⟨some "a", some "b", true⟩ := by
  refine ⟨by decide, by decide, ?_⟩
  have h := decryptFilename_keeps_first_two_segments "EQwSDBM=" "p" [17, 12, 18, 12, 19]
    (by decide) (by decide)
  exact h.trans (by decide)

/-! ## Claim C4 -/

/-- C4: decoding the filename produced by the primary-scheme encoder inverts
it on the given fixture: encoding dateTime "20240102_030405" and link
"https://example.com/x" under password "p" and decoding with password "p"
recovers both values. -/
theorem filenameCodec_roundTrip_fixture :
    decryptFilename (filenameEncode "20240102_030405" (some "https://example.com/x") "p") "p"
      = ⟨some "20240102_030405", some "https://example.com/x", true⟩ := by
  decide

/-! ## Claim C5 -/

/-- C5: for every password, the legacy-format filename
"20240102_030405_example.com_x.png" decodes to dateTime "20240102_030405" and
link "https://example.com/x": the stem is not base64-decodable, the digit and
underscore checks of the legacy branch pass, underscores in the remainder
become slashes, and the missing scheme is completed to "https://". -/
theorem legacyFilename_fixture (password : String) :
    decryptFilename "20240102_030405_example.com_x.png" password
      = ⟨some "20240102_030405", some "https://example.com/x", true⟩ := rfl

/-! ## Claim C6 -/

/-- C6: for every buffer that carries the magic marker, parsing fails with
the too-small error below length 20, fails with the empty-payload error at
length exactly 20, and otherwise succeeds splitting the buffer into
nonce = bytes[4:12], counter = bytes[12:20] and ciphertext = bytes[20:]. -/
theorem parseContainer_cases (bytes : List Nat) (h : checkEncryptionMarker bytes = true) :
    (bytes.length < 20 → parseContainer bytes = .error .tooSmall)
    ∧ (bytes.length = 20 → parseContainer bytes = .error .emptyPayload)
    ∧ (20 < bytes.length →
        parseContainer bytes
          = .ok ⟨(bytes.drop 4).take 8, (bytes.drop 12).take 8, bytes.drop 20⟩) := by
  refine ⟨fun h1 => ?_, fun h2 => ?_, fun h3 => ?_⟩
  · unfold parseContainer
    rw [if_pos h1]
  · unfold parseContainer
    rw [if_neg (by omega), if_neg (by rw [h]; simp),
      if_pos (List.drop_eq_nil_of_le (by omega))]
  · have hne : bytes.drop 20 ≠ [] := by
      have hd : (bytes.drop 20).length = bytes.length - 20 := List.length_drop 20 bytes
      intro hcon
      rw [hcon] at hd
      simp at hd
      omega
    unfold parseContainer
    rw [if_neg (by omega), if_neg (by rw [h]; simp), if_neg hne]

/-- Witness for C6 at concrete marker-prefixed buffers of lengths 10, 20, 21. -/
theorem parseContainer_cases_witness :
    checkEncryptionMarker (magicMarker ++ List.replicate 6 0) = true
    ∧ parseContainer (magicMarker ++ List.replicate 6 0) = .error .tooSmall
    ∧ parseContainer (magicMarker ++ List.replicate 16 0) = .error .emptyPayload
    ∧ parseContainer (magicMarker ++ List.replicate 17 0)
        = .ok ⟨List.replicate 8 0, List.replicate 8 0, [0]⟩ := by
  refine ⟨by decide, ?_, ?_, ?_⟩
  · exact (parseContainer_cases _ (by decide)).1 (by decide)
  · exact (parseContainer_cases _ (by decide)).2.1 (by decide)
  · exact ((parseContainer_cases _ (by decide)).2.2 (by decide)).trans (by rfl)

/-! ## Claim C7 -/

/-- C7: in strict legacy mode, for every keystream, key and input of length
at least 17 (16-byte raw counter block plus non-empty ciphertext), the
decryption itself always produces a byte sequence, and the file is reported
as a failure with the wrong-password message exactly when the sniff of the
decrypted bytes does not recognize a known type — the sniff being the only
integrity signal. -/
theorem strictLegacy_sniff_is_only_integrity (ks : Keystream) (key bytes : List Nat)
    (h : 17 ≤ bytes.length) :
    processFileLegacy ks key bytes =
      (if (detectFileTypeLegacy ((ctrXor ks key (bytes.take 16) 0 (bytes.drop 16)).take 4)).ty
          = unknownTypeLabel
       then .err wrongPasswordMsg
       else .ok
          (detectFileTypeLegacy ((ctrXor ks key (bytes.take 16) 0 (bytes.drop 16)).take 4)).ext
          (detectFileTypeLegacy ((ctrXor ks key (bytes.take 16) 0 (bytes.drop 16)).take 4)).ty
          (ctrXor ks key (bytes.take 16) 0 (bytes.drop 16)))
    ∧ (processFileLegacy ks key bytes = .err wrongPasswordMsg ↔
        (detectFileTypeLegacy ((ctrXor ks key (bytes.take 16) 0 (bytes.drop 16)).take 4)).ty
          = unknownTypeLabel) := by
  have h16 : ¬ (bytes.length < 16) := by omega
  have hne : bytes.drop 16 ≠ [] := by
    have hd : (bytes.drop 16).length = bytes.length - 16 := List.length_drop 16 bytes
    intro hcon
    rw [hcon] at hd
    simp at hd
    omega
  have heq : processFileLegacy ks key bytes =
      (if (detectFileTypeLegacy ((ctrXor ks key (bytes.take 16) 0 (bytes.drop 16)).take 4)).ty
          = unknownTypeLabel
       then .err wrongPasswordMsg
       else .ok
          (detectFileTypeLegacy ((ctrXor ks key (bytes.take 16) 0 (bytes.drop 16)).take 4)).ext
          (detectFileTypeLegacy ((ctrXor ks key (bytes.take 16) 0 (bytes.drop 16)).take 4)).ty
          (ctrXor ks key (bytes.take 16) 0 (bytes.drop 16))) := by
    simp only [processFileLegacy]
    rw [if_neg h16, if_neg hne]
  refine ⟨heq, ?_⟩
  rw [heq]
  by_cases hty : (detectFileTypeLegacy
      ((ctrXor ks key (bytes.take 16) 0 (bytes.drop 16)).take 4)).ty = unknownTypeLabel
  · rw [if_pos hty]
    simp [hty]
  · rw [if_neg hty]
    simp [hty]

/-- A trivial concrete keystream instance. -/
def ksZero : Keystream := fun _ _ _ => 0

/-- Witness for C7 at a 17-byte all-zero input: decryption yields a byte that
sniffs as unknown, so the file is reported with the wrong-password message. -/
theorem strictLegacy_sniff_is_only_integrity_witness :
    17 ≤ (List.replicate 17 0 : List Nat).length
    ∧ processFileLegacy ksZero [] (List.replicate 17 0) = .err wrongPasswordMsg := by
  refine ⟨by decide, ?_⟩
  have h := (strictLegacy_sniff_is_only_integrity ksZero [] (List.replicate 17 0) (by decide)).1
  exact h.trans (by decide)

/-! ## Claim C8 -/

/-- C8: for every keystream, key and input whose first bytes do not carry the
magic marker and whose leading bytes sniff as a recognized signature, the
pipeline performs no decryption: the output bytes are the input bytes
unchanged, the file is not marked encrypted, and processing succeeds. -/
theorem passthrough_without_marker (ks : Keystream) (key bytes : List Nat)
    (h1 : checkEncryptionMarker bytes = false)
    (_h2 : (detectFileType bytes).isValid = true) :
    processFile ks key bytes = .ok false bytes (detectFileType bytes) := by
  simp only [processFile]
  rw [if_neg (by simp [h1])]

/-- Witness for C8 at a marker-free JPEG-prefixed input. -/
theorem passthrough_without_marker_witness :
    checkEncryptionMarker [255, 216, 7] = false
    ∧ (detectFileType [255, 216, 7]).isValid = true
    ∧ processFile ksZero [] [255, 216, 7]
        = .ok false [255, 216, 7] ⟨"jpg", "image/jpeg", "JPEG", true⟩ := by
  refine ⟨by decide, by decide, ?_⟩
  exact (passthrough_without_marker ksZero [] [255, 216, 7] (by decide) (by decide)).trans
    (by rfl)

/-! ## Claim C9 -/

/-- C9: the pipeline replaces an empty password by the literal
"default_password" before key derivation, so the key derived for the empty
password equals the key derived for "default_password" — the digest of the
UTF-8 encoding of "default_password" (digest abstracted as `H`). -/
theorem emptyPassword_uses_default_key (H : List Nat → List Nat) :
    generateKey H (effectivePassword "") = generateKey H "default_password"
    ∧ generateKey H (effectivePassword "") = H (utf8Encode "default_password") :=
  ⟨rfl, rfl⟩

/-! ## Claim C10 -/

/-- C10: each signature comparison checks only the bytes actually present, so
any buffer that is a proper prefix of a known signature is classified as that
signature's type with a valid result; the empty buffer vacuously matches the
first entry and sniffs as JPEG, and the single byte 0x42 sniffs as BMP —
in both sniffer variants. -/
theorem sniffer_accepts_signature_prefixes :
    detectFileType [] = ⟨"jpg", "image/jpeg", "JPEG", true⟩
    ∧ detectFileType [0x42] = ⟨"bmp", "image/bmp", "BMP", true⟩
    ∧ detectFileTypeLegacy [] = ⟨"jpg", "JPEG"⟩
    ∧ detectFileTypeLegacy [0x42] = ⟨"bmp", "BMP"⟩
    ∧ ∀ ft ∈ fileTypes, ∀ b : List Nat, b ≠ [] → b.length < ft.sig.length → b <+: ft.sig →
        detectFileType b = ⟨ft.ext, ft.mime, ft.ty, true⟩ := by
  refine ⟨by decide, by decide, by decide, by decide, ?_⟩
  intro ft hft b hne hlt hpre
  have hb : b = ft.sig.take b.length := List.prefix_iff_eq_take.mp hpre
  have hpos : 0 < b.length := List.length_pos.mpr hne
  simp only [fileTypes, List.mem_cons, List.not_mem_nil, or_false] at hft
  rcases hft with rfl | rfl | rfl | rfl | rfl
  · have hlt2 : b.length < 2 := hlt
    have h1 : b.length = 1 := by omega
    rw [h1] at hb
    subst hb
    decide
  · have hlt2 : b.length < 4 := hlt
    have h1 : b.length = 1 ∨ b.length = 2 ∨ b.length = 3 := by omega
    rcases h1 with h1 | h1 | h1 <;> (rw [h1] at hb; subst hb; decide)
  · have hlt2 : b.length < 2 := hlt
    have h1 : b.length = 1 := by omega
    rw [h1] at hb
    subst hb
    decide
  · have hlt2 : b.length < 4 := hlt
    have h1 : b.length = 1 ∨ b.length = 2 ∨ b.length = 3 := by omega
    rcases h1 with h1 | h1 | h1 <;> (rw [h1] at hb; subst hb; decide)
  · have hlt2 : b.length < 4 := hlt
    have h1 : b.length = 1 ∨ b.length = 2 ∨ b.length = 3 := by omega
    rcases h1 with h1 | h1 | h1 <;> (rw [h1] at hb; subst hb; decide)

/-- Witness for C10's universal part at the two-byte PNG prefix. -/
theorem sniffer_accepts_signature_prefixes_witness :
    detectFileType [0x89, 0x50, 0x4E] = ⟨"png", "image/png", "PNG", true⟩ := by
  have h := sniffer_accepts_signature_prefixes.2.2.2.2
    ⟨[0x89, 0x50, 0x4E, 0x47], "png", "image/png", "PNG"⟩
    (by decide) [0x89, 0x50, 0x4E] (by decide) (by decide) ⟨[0x47], rfl⟩
  exact h
